import Mathlib

/-!
Verification of the DocBrain RAG SaaS repository against its
natural-language specification.

The repository ships the frontend (Next.js dashboard, embeddable chat
widget) and design documents; the backend core (ConfigValidator,
ChunkingEngine, HybridRetrievalEngine, ProcessingPipeline) is described
by the specification but its implementation is not part of the sources.
Components present in the sources are embedded from the code; missing
backend components are modelled from the specification and marked as
such in their doc comments.
-/

/- ===== Frontend configuration tab (unnamed/part_007, ConfigTab) ===== -/

/-- Retrieval modes of the frontend `RagMode` enum (frontend types file). -/
inductive RagMode
  | vector
  | hybrid
  | router
  | sentence_window
  | parent_child
deriving DecidableEq, Repr

/-- Chunking strategies of the frontend `ChunkingStrategy` enum. -/
inductive FrontChunkStrategy
  | standard
  | markdown
  | semantic
  | window
deriving DecidableEq, Repr

/-- Fields of the frontend `RagConfig` object edited by `ConfigTab`. -/
inductive RagField
  | mode
  | chunking_strategy
  | llm_model
  | top_k
  | temperature
deriving DecidableEq, Repr

/-- Whether the `ConfigTab` control for a `RagConfig` field carries the
`disabled` attribute, as a function of `hasDocuments` (documents exist for
the chatbot).  Embedded from unnamed/part_007: the Retrieval Mode select and
the Chunking select carry `disabled=Boolean(hasDocuments)`; the LLM Model
select, the Top K input and the Temperature input carry no `disabled`
attribute. -/
def ragFieldDisabled (f : RagField) (hasDocuments : Bool) : Bool :=
  match f with
  | .mode => hasDocuments
  | .chunking_strategy => hasDocuments
  | .llm_model => false
  | .top_k => false
  | .temperature => false

/-- Fields designated live-tunable by the specification (generation
temperature, top-k; max tokens, system prompt and the reranking switch do
not exist in the frontend `RagConfig`). -/
def liveTunable (f : RagField) : Bool :=
  match f with
  | .top_k => true
  | .temperature => true
  | _ => false

/- ===== Embeddable chat widget (widget/src/main.js, RAGWidget) ===== -/

/-- One completed exchange in the widget history, as pushed by
`RAGWidget._send`: `this.history.push(\x7b user: text, bot: full \x7d)`. -/
structure Exchange where
  user : String
  bot : String
deriving DecidableEq, Repr

/-- Outcome of the fetch performed by `RAGWidget._send`: the fetch (or the
stream reader) threw, the response had a non-OK status, or the response
stream completed with the given chunks. -/
inductive FetchOutcome
  | netError
  | badStatus (statusText : String)
  | okStream (chunks : List String)
deriving DecidableEq, Repr

/-- Removal of leading and trailing whitespace, embedding the JavaScript
`String.prototype.trim` used by the widget. -/
def jsTrim (s : String) : String :=
  ⟨((s.data.dropWhile Char.isWhitespace).reverse.dropWhile
      Char.isWhitespace).reverse⟩

/-- History update performed by `RAGWidget._send` (widget/src/main.js):
an empty trimmed input returns early; a non-OK status or a thrown error
leaves the history unchanged (an error message is merely displayed); only
after the stream completes is the user and bot pair pushed. -/
def widgetSend (history : List Exchange) (input : String)
    (outcome : FetchOutcome) : List Exchange :=
  let text := jsTrim input
  if text = "" then history
  else
    match outcome with
    | .netError => history
    | .badStatus _ => history
    | .okStream chunks => history ++ [⟨text, String.join chunks⟩]

/- ===== Knowledge-base upload tab (unnamed/part_008, KnowledgeTab) ===== -/

/-- State of the `KnowledgeTab` component: the document list served by the
documents query, the `pendingFile` and `showConfirmDialog` React states, and
the list of files handed to `ingestMutation` so far.  On ingestion the
documents query is invalidated and refetched, which the model reflects by
also appending the file to `documents`. -/
structure KnowledgeState where
  documents : List String
  pendingFile : Option String
  showConfirmDialog : Bool
  ingested : List String
deriving DecidableEq, Repr

/-- The `handleFileChange` handler of `KnowledgeTab`: on the first upload
(document list empty) the file only becomes `pendingFile` and the
confirmation dialog opens; otherwise the file is ingested immediately. -/
def handleFileChange (s : KnowledgeState) (f : String) : KnowledgeState :=
  if s.documents.isEmpty then
    { s with pendingFile := some f, showConfirmDialog := true }
  else
    { s with ingested := s.ingested ++ [f], documents := s.documents ++ [f] }

/-- The `handleConfirmUpload` handler: ingests the pending file (if any),
clears it, and closes the dialog.  In the component this handler is only
reachable from the action button rendered inside the open dialog, which the
model reflects by guarding on `showConfirmDialog`. -/
def handleConfirmUpload (s : KnowledgeState) : KnowledgeState :=
  if s.showConfirmDialog then
    match s.pendingFile with
    | some f =>
        { s with ingested := s.ingested ++ [f], documents := s.documents ++ [f],
                 pendingFile := none, showConfirmDialog := false }
    | none => { s with showConfirmDialog := false }
  else s

/-- The cancel action of the confirmation dialog: it only closes the dialog
(the component does not clear `pendingFile` on cancel). -/
def handleCancelDialog (s : KnowledgeState) : KnowledgeState :=
  { s with showConfirmDialog := false }

/-- User-interaction events on the knowledge tab. -/
inductive KnowledgeEvent
  | selectFile (f : String)
  | confirmUpload
  | cancelDialog
deriving DecidableEq, Repr

/-- One step of the knowledge tab, dispatching to the component handlers. -/
def knowledgeStep (s : KnowledgeState) : KnowledgeEvent → KnowledgeState
  | .selectFile f => handleFileChange s f
  | .confirmUpload => handleConfirmUpload s
  | .cancelDialog => handleCancelDialog s

/-- Runs a sequence of knowledge-tab events. -/
def knowledgeRun (s : KnowledgeState) : List KnowledgeEvent → KnowledgeState
  | [] => s
  | e :: es => knowledgeRun (knowledgeStep s e) es

/- ===== Backend data model, modelled from the specification =====

The backend core is not part of the repository sources; the following
definitions are modelled from the specification (sections 3 to 4.5). -/

/-- Modelled from the spec: `EmbeddingSpec` of the PipelineConfig (spec
section 3).  The backend implementing it is missing from the sources. -/
structure EmbeddingSpec where
  provider : String
  model_id : String
  params : List (String × String)
  credential_ref : String
  batch_size : ℕ
deriving DecidableEq, Repr

/-- Modelled from the spec: the chunking strategy set of `ChunkingSpec`. -/
inductive ChunkStrategy
  | standard
  | semantic
  | structural
  | window
deriving DecidableEq, Repr

/-- Modelled from the spec: `ChunkingSpec` of the PipelineConfig. -/
structure ChunkingSpec where
  strategy : ChunkStrategy
  chunk_size : ℕ
  overlap : ℕ
  window_size : ℕ
  semantic_threshold : ℚ
  respect_structure : Bool
deriving DecidableEq, Repr

/-- Modelled from the spec: the retrieval mode set of `RetrievalSpec`. -/
inductive RetrievalMode
  | vector
  | keyword
  | hybrid
  | contextual
deriving DecidableEq, Repr

/-- Modelled from the spec: the hybrid weight pair of `RetrievalSpec`. -/
structure HybridWeights where
  semantic : ℚ
  keyword : ℚ
deriving DecidableEq, Repr

/-- Modelled from the spec: `RetrievalSpec` of the PipelineConfig. -/
structure RetrievalSpec where
  mode : RetrievalMode
  top_k_initial : ℕ
  top_k_final : ℕ
  hybrid_weights : HybridWeights
  enable_reranking : Bool
  reranker_id : String
  similarity_threshold : ℚ
deriving DecidableEq, Repr

/-- Modelled from the spec: `GenerationSpec` of the PipelineConfig. -/
structure GenerationSpec where
  model_id : String
  provider : String
  temperature : ℚ
  max_tokens : ℕ
  system_prompt : String
  credential_ref : String
deriving DecidableEq, Repr

/-- Modelled from the spec: the PipelineConfig aggregate (spec section 3);
the optional VisualSpec and the PerformanceSpec take no part in any checked
claim and are omitted. -/
structure PipelineConfig where
  embedding : EmbeddingSpec
  chunking : ChunkingSpec
  retrieval : RetrievalSpec
  generation : GenerationSpec
deriving DecidableEq, Repr

/- ===== ConfigValidator, modelled from the specification (4.1) ===== -/

/-- Modelled from the spec: one field-attributed entry of the structured
error list returned by `validate`. -/
structure ValidationIssue where
  field : String
  message : String
deriving DecidableEq, Repr

/-- Modelled from the spec: the `ValidationResult` returned by
`ConfigValidator.validate`. -/
structure ValidationResult where
  ok : Bool
  errors : List ValidationIssue
  cost_estimate : ℕ
  requires_reprocessing : Bool
deriving DecidableEq, Repr

/-- Modelled from the spec: the tolerance within which the hybrid weights
must sum to one. -/
def weightsEpsilon : ℚ := 1 / 1000

/-- Modelled from the spec: the fields of an `EmbeddingSpec` that affect the
vector space (provider, model and model parameters; the batch size and the
credential reference do not). -/
def embeddingVectorFields (e : EmbeddingSpec) :
    String × String × List (String × String) :=
  (e.provider, e.model_id, e.params)

/-- Modelled from the spec: `requires_reprocessing` is true iff the
`EmbeddingSpec` or the `ChunkingSpec` differs from the currently ACTIVE
config in a field affecting chunk boundaries or vector space (every
`ChunkingSpec` field affects chunk boundaries). -/
def requiresReprocessing (proposed active : PipelineConfig) : Bool :=
  decide (embeddingVectorFields proposed.embedding ≠
            embeddingVectorFields active.embedding ∨
          proposed.chunking ≠ active.chunking)

/-- Modelled from the spec: `ConfigValidator.validate` as a total function
(it never throws on user input).  `resolve` is the external credential
store; `estimatedChunkCount` and `unitEmbeddingCost` feed the cost
estimate; `existing` is the currently ACTIVE config, when any.  Checks in
order: cross-field consistency (overlap below chunk size, top-k ordering,
weight sum within epsilon) and credential presence. -/
def validate (resolve : String → Option String)
    (estimatedChunkCount unitEmbeddingCost : ℕ)
    (proposed : PipelineConfig) (existing : Option PipelineConfig) :
    ValidationResult :=
  let errs : List ValidationIssue :=
    (if proposed.chunking.overlap < proposed.chunking.chunk_size then []
     else [⟨"chunking.overlap", "overlap must be smaller than chunk_size"⟩]) ++
    (if proposed.retrieval.top_k_final ≤ proposed.retrieval.top_k_initial then []
     else [⟨"retrieval.top_k_final",
            "top_k_final must not exceed top_k_initial"⟩]) ++
    (if |proposed.retrieval.hybrid_weights.semantic +
          proposed.retrieval.hybrid_weights.keyword - 1| ≤ weightsEpsilon then []
     else [⟨"retrieval.hybrid_weights", "weights must sum to 1"⟩]) ++
    (if (resolve proposed.embedding.credential_ref).isSome then []
     else [⟨"embedding.credential_ref", "credential not found"⟩]) ++
    (if (resolve proposed.generation.credential_ref).isSome then []
     else [⟨"generation.credential_ref", "credential not found"⟩])
  let reproc :=
    match existing with
    | some active => requiresReprocessing proposed active
    | none => false
  { ok := errs.isEmpty
    errors := errs
    cost_estimate := if reproc then estimatedChunkCount * unitEmbeddingCost else 0
    requires_reprocessing := reproc }

/-- Modelled from the spec: reasons the ACTIVE transition is refused. -/
inductive ActivateError
  | validationFailed
  | confirmationRequired
deriving DecidableEq, Repr

/-- Modelled from the spec: marking a validated config ACTIVE; refused
while the validation failed, and refused without an explicit confirmation
token whenever reprocessing is required. -/
def markActive (result : ValidationResult) (confirmToken : Option String) :
    Except ActivateError Unit :=
  if result.ok = false then .error .validationFailed
  else if result.requires_reprocessing && confirmToken.isNone then
    .error .confirmationRequired
  else .ok ()

/- ===== ProcessingPipeline task machine, modelled from the spec (4.5) ===== -/

/-- Modelled from the spec: the Task state machine states. -/
inductive TaskState
  | queued
  | processing
  | retrying
  | completed
  | failed
deriving DecidableEq, Repr

/-- Modelled from the spec: the Task fields the retry logic touches (the
name avoids the core Task type). -/
structure IngestTask where
  task_id : ℕ
  state : TaskState
  retry_count : ℕ
  max_retries : ℕ
  last_error : Option String
deriving DecidableEq, Repr

/-- Modelled from the spec: outcome of one processing attempt. -/
inductive AttemptOutcome
  | success
  | failure (err : String)
deriving DecidableEq, Repr

/-- Modelled from the spec: one task plus the dead-letter channel and the
backoff delays scheduled so far (in multiples of the base delay unit). -/
structure PipelineState where
  task : IngestTask
  deadLetter : List ℕ
  delays : List ℕ
deriving DecidableEq, Repr

/-- Modelled from the spec: the base backoff delay, one second. -/
def backoffBase : ℕ := 1

/-- Modelled from the spec, section 4.5: on success the task completes; on
failure `retry_count` is incremented, then if `retry_count < max_retries`
the task moves to RETRYING and is re-enqueued after
`delay = base * 2 ^ retry_count`, otherwise it moves to FAILED and is
placed on the dead-letter channel. -/
def processOutcome (ps : PipelineState) : AttemptOutcome → PipelineState
  | .success =>
      { ps with task := { ps.task with state := .completed } }
  | .failure err =>
      let rc := ps.task.retry_count + 1
      if rc < ps.task.max_retries then
        { ps with
            task := { ps.task with
                        state := .retrying, retry_count := rc,
                        last_error := some err }
            delays := ps.delays ++ [backoffBase * 2 ^ rc] }
      else
        { ps with
            task := { ps.task with
                        state := .failed, retry_count := rc,
                        last_error := some err }
            deadLetter := ps.deadLetter ++ [ps.task.task_id] }

/-- Runs a sequence of attempt outcomes through the pipeline machine. -/
def runAttempts (ps : PipelineState) : List AttemptOutcome → PipelineState
  | [] => ps
  | o :: os => runAttempts (processOutcome ps o) os

/- ===== ChunkingEngine, modelled from the specification (4.3) ===== -/

/-- Modelled from the spec: start offsets of the standard fixed-size
sliding window.  A chunk starts at `s`; when the text end lies within
`chunk_size` of `s` the chunk is the last one, otherwise the next chunk
starts `step = chunk_size - overlap` later.  The structurally decreasing
`fuel` argument only serves termination; `standardStarts` supplies enough
fuel for it never to run out. -/
def standardStartsAux (cs step N : ℕ) : ℕ → ℕ → List ℕ
  | 0, s => [s]
  | fuel + 1, s =>
      if N ≤ s + cs then [s]
      else s :: standardStartsAux cs step N fuel (s + step)

/-- Modelled from the spec: all chunk start offsets of the standard
strategy over a text of `N` units. -/
def standardStarts (cs ov N : ℕ) : List ℕ :=
  standardStartsAux cs (cs - ov) N N 0

/-- Modelled from the spec: the chunk spans (offset and length) of the
standard strategy; every chunk has `chunk_size` units except possibly the
last, which is clipped at the text end. -/
def standardChunkSpans (cs ov N : ℕ) : List (ℕ × ℕ) :=
  (standardStarts cs ov N).map fun s => (s, min cs (N - s))

/-- Modelled from the spec: the chunk texts of the standard strategy. -/
def standardChunkTexts (cs ov : ℕ) (text : List Char) : List (List Char) :=
  (standardChunkSpans cs ov text.length).map fun span =>
    (text.drop span.1).take span.2

/-- Modelled from the spec: sentence-level units, taken as the segments
between full stops. -/
def splitSentences (text : List Char) : List (List Char) :=
  text.splitOn '.'

/-- Modelled from the spec: structure hints passed to `split`; the
sentence-embedding similarity signal of the semantic strategy is supplied
abstractly, indexed by the boundary between consecutive sentences. -/
structure StructureHints where
  sentenceSimilarity : ℕ → ℚ

/-- Modelled from the spec: the semantic strategy walks consecutive
sentences, inserting a boundary where the similarity drops below the
threshold, with `chunk_size` as a hard backstop. -/
def semanticChunksAux (thr : ℚ) (maxSize : ℕ) (sim : ℕ → ℚ) :
    ℕ → List Char → List (List Char) → List (List Char)
  | _, cur, [] => [cur]
  | i, cur, next :: rest =>
      if sim i < thr ∨ maxSize < cur.length + next.length then
        cur :: semanticChunksAux thr maxSize sim (i + 1) next rest
      else
        semanticChunksAux thr maxSize sim (i + 1) (cur ++ next) rest

/-- Modelled from the spec: the semantic strategy over a sentence list. -/
def semanticChunks (thr : ℚ) (maxSize : ℕ) (sim : ℕ → ℚ) :
    List (List Char) → List (List Char)
  | [] => []
  | s :: rest => semanticChunksAux thr maxSize sim 0 s rest

/-- Modelled from the spec: a heading line of the hierarchical markup. -/
def isHeading (line : List Char) : Bool :=
  line.head? = some '#'

/-- Modelled from the spec: grouping of lines into leaf sections, a new
section starting at each heading line. -/
def groupSections : List (List Char) → List (List (List Char))
  | [] => []
  | l :: ls =>
      let rest := groupSections ls
      if isHeading l then [l] :: rest
      else
        match rest with
        | [] => [[l]]
        | sec :: secs =>
            match sec with
            | first :: _ =>
                if isHeading first then [l] :: rest else (l :: sec) :: secs
            | [] => (l :: sec) :: secs

/-- Modelled from the spec: the structural strategy emits one chunk per
leaf section and sub-splits any leaf exceeding `chunk_size` with the
standard algorithm. -/
def structuralChunks (cs ov : ℕ) (text : List Char) : List (List Char) :=
  (groupSections (text.splitOn '\n')).flatMap fun sec =>
    let t := List.intercalate ['\n'] sec
    if t.length ≤ cs then [t] else standardChunkTexts cs ov t

/-- Modelled from the spec: the window strategy produces overlapping
sentence windows of `window_size` sentences, stepping one sentence at a
time. -/
def windowChunks (ws : ℕ) (sents : List (List Char)) : List (List Char) :=
  if sents.length ≤ ws then [List.intercalate ['.'] sents]
  else
    (List.range (sents.length - ws + 1)).map fun i =>
      List.intercalate ['.'] ((sents.drop i).take ws)

/-- Modelled from the spec: `ChunkingEngine.split`.  Empty or
whitespace-only input produces zero chunks (not an error); a document
shorter than `chunk_size` yields exactly one chunk (the whole document,
hence zero overlap); otherwise the algorithm selected by the strategy
runs. -/
def ChunkingEngine.split (spec : ChunkingSpec) (hints : StructureHints)
    (text : List Char) : List (List Char) :=
  if text.all Char.isWhitespace then []
  else if text.length < spec.chunk_size then [text]
  else
    match spec.strategy with
    | .standard => standardChunkTexts spec.chunk_size spec.overlap text
    | .semantic =>
        semanticChunks spec.semantic_threshold spec.chunk_size
          hints.sentenceSimilarity (splitSentences text)
    | .structural => structuralChunks spec.chunk_size spec.overlap text
    | .window => windowChunks spec.window_size (splitSentences text)

/- ===== HybridRetrievalEngine, modelled from the specification (4.4) ===== -/

/-- Modelled from the spec: a retrieval candidate after union of the two
sub-searches, carrying both raw scores. -/
structure RetrievalCandidate where
  chunk_id : ℕ
  semantic_score : ℚ
  keyword_score : ℚ
deriving DecidableEq, Repr

/-- Modelled from the spec: a candidate with its combined score attached
(the per-candidate component scores kept for explainability). -/
structure RankedResult where
  chunk_id : ℕ
  semantic_score : ℚ
  keyword_score : ℚ
  combined_score : ℚ
deriving DecidableEq, Repr

/-- Modelled from the spec: union of the vector and keyword sub-search
results by chunk id; a candidate present in only one sub-search receives 0
for the missing signal. -/
def mergeCandidates (vres kres : List (ℕ × ℚ)) : List RetrievalCandidate :=
  (vres.map fun p => ⟨p.1, p.2, ((kres.lookup p.1).getD 0 : ℚ)⟩) ++
    ((kres.filter fun p => (vres.lookup p.1).isNone).map
      fun p => ⟨p.1, 0, p.2⟩)

/-- Minimum of a score list, with default 0 on the empty list. -/
def listMin : List ℚ → ℚ
  | [] => 0
  | x :: xs => xs.foldl min x

/-- Maximum of a score list, with default 0 on the empty list. -/
def listMax : List ℚ → ℚ
  | [] => 0
  | x :: xs => xs.foldl max x

/-- Modelled from the spec: min-max normalization of a score against its
own distribution, mapping it into the unit interval; a degenerate
distribution normalizes to 0. -/
def normalizeScore (xs : List ℚ) (x : ℚ) : ℚ :=
  let lo := listMin xs
  let hi := listMax xs
  if hi ≤ lo then 0 else (x - lo) / (hi - lo)

/-- Modelled from the spec: the weighted combination step, each signal
normalized against its own distribution before weighting. -/
def combineCandidates (w : HybridWeights) (cands : List RetrievalCandidate) :
    List RankedResult :=
  let sems := cands.map RetrievalCandidate.semantic_score
  let kws := cands.map RetrievalCandidate.keyword_score
  cands.map fun c =>
    ⟨c.chunk_id, c.semantic_score, c.keyword_score,
     w.semantic * normalizeScore sems c.semantic_score +
       w.keyword * normalizeScore kws c.keyword_score⟩

/-- Insertion of an element into a list sorted by the boolean precedence
relation `le`. -/
def insertBy (le : α → α → Bool) (a : α) : List α → List α
  | [] => [a]
  | b :: bs => if le a b then a :: b :: bs else b :: insertBy le a bs

/-- Insertion sort by the boolean precedence relation `le`. -/
def sortBy (le : α → α → Bool) : List α → List α
  | [] => []
  | a :: as => insertBy le a (sortBy le as)

/-- Modelled from the spec: the ranking precedence for combined scores:
higher combined score first, ties broken by higher raw semantic score, then
by chunk id (standing in for chunk recency, which the data model does not
carry). -/
def combinedOrder (a b : RankedResult) : Bool :=
  if a.combined_score = b.combined_score then
    if a.semantic_score = b.semantic_score then
      decide (a.chunk_id ≤ b.chunk_id)
    else decide (b.semantic_score < a.semantic_score)
  else decide (b.combined_score < a.combined_score)

/-- Ordering by raw semantic score alone: higher score first, ties broken
by chunk id, matching the final tie-break of `combinedOrder`. -/
def semanticOrder (a b : RankedResult) : Bool :=
  if a.semantic_score = b.semantic_score then
    decide (a.chunk_id ≤ b.chunk_id)
  else decide (b.semantic_score < a.semantic_score)

/-- Modelled from the spec: the result of a query, the ranked list plus the
degradation flag. -/
structure RetrievalOutput where
  results : List RankedResult
  degraded : Bool
deriving DecidableEq, Repr

/-- Modelled from the spec: query-time failures of the mandatory path. -/
inductive QueryError
  | invalidConfig
deriving DecidableEq, Repr

/-- Modelled from the spec: the two-stage retrieval.  The two sub-search
result lists are gathered, unioned and combined; when reranking is enabled
the top candidates go to the reranker (an external call that may fail,
returning `none`); a reranker failure falls back to the combined-score
ordering unmodified and flags the response as degraded; the final stage
truncates to `top_k_final`. -/
def HybridRetrievalEngine.retrieve (spec : RetrievalSpec)
    (reranker : List RankedResult → Option (List RankedResult))
    (vres kres : List (ℕ × ℚ)) : Except QueryError RetrievalOutput :=
  let combined := sortBy combinedOrder
    (combineCandidates spec.hybrid_weights (mergeCandidates vres kres))
  if spec.enable_reranking then
    match reranker (combined.take spec.top_k_initial) with
    | some reranked => .ok ⟨reranked.take spec.top_k_final, false⟩
    | none => .ok ⟨combined.take spec.top_k_final, true⟩
  else .ok ⟨combined.take spec.top_k_final, false⟩

/- ===== Theorems ===== -/

/-- C1 counterexample: the claim that every non-live-tunable RagConfig
field is locked once documents exist fails on the code: the generation
model select (llm_model) is not live-tunable, yet ConfigTab renders it
without a disabled attribute even when documents exist. -/
theorem configTab_llm_model_editable :
    liveTunable RagField.llm_model = false ∧
    ragFieldDisabled RagField.llm_model true = false := by
  decide

/-- C1 (amended): when documents exist, ConfigTab locks exactly the
retrieval mode and the chunking strategy; the LLM model, top-k and
temperature controls remain editable. -/
theorem configTab_locked_fields (f : RagField) :
    ragFieldDisabled f true = true ↔
      (f = RagField.mode ∨ f = RagField.chunking_strategy) := by
  cases f <;> simp [ragFieldDisabled]

/-- C9: the widget history is updated atomically per exchange: after a
completed stream exactly the one user and bot pair is appended (history
grows by one); on a non-OK status or a thrown network error the history is
left unchanged. -/
theorem widget_history_atomic (h : List Exchange) (t : String)
    (out : FetchOutcome) (ht : jsTrim t ≠ "") :
    (∀ chunks, out = FetchOutcome.okStream chunks →
        widgetSend h t out = h ++ [⟨jsTrim t, String.join chunks⟩] ∧
        (widgetSend h t out).length = h.length + 1) ∧
    (out = FetchOutcome.netError → widgetSend h t out = h) ∧
    (∀ st, out = FetchOutcome.badStatus st → widgetSend h t out = h) := by
  refine ⟨?_, ?_, ?_⟩
  · intro chunks hout
    subst hout
    simp [widgetSend, ht]
  · intro hout
    subst hout
    simp [widgetSend, ht]
  · intro st hout
    subst hout
    simp [widgetSend, ht]

/-- C9 witness: a concrete successful exchange appends exactly one pair. -/
theorem widget_history_atomic_witness :
    jsTrim "hi" ≠ "" ∧
    widgetSend [] "hi" (FetchOutcome.okStream ["a", "b"]) =
      [⟨"hi", "ab"⟩] := by
  have ht : jsTrim "hi" ≠ "" := by decide
  refine ⟨ht, ?_⟩
  have hmain :=
    ((widget_history_atomic [] "hi" (FetchOutcome.okStream ["a", "b"]) ht).1
      ["a", "b"] rfl).1
  simpa using hmain

/-- C2 counterexample: with max_retries three and every attempt failing,
the literal backoff rule of the spec (increment retry_count, then delay
base times two to the power retry_count) schedules the delays 2 and 4 —
two delays, not the claimed three delays 1, 2, 4. -/
theorem retry_delays_counterexample :
    (runAttempts ⟨⟨1, .queued, 0, 3, none⟩, [], []⟩
        [.failure "timeout", .failure "timeout", .failure "timeout"]).delays
      = [2, 4] ∧ ([2, 4] : List ℕ) ≠ [1, 2, 4] := by
  constructor
  · rfl
  · decide

/-- C2 (amended): for a task with retry_count zero and max_retries three,
three consecutive failures move it RETRYING (retry_count 1), RETRYING
(retry_count 2), then FAILED with retry_count 3 and dead-lettered; the
observed backoff delays are base times 2 ^ 1 and base times 2 ^ 2, that is
2s and 4s — only two delays separate three attempts. -/
theorem task_retry_exhaustion (t : IngestTask) (dl : List ℕ)
    (e1 e2 e3 : String) (hrc : t.retry_count = 0) (hmax : t.max_retries = 3) :
    (runAttempts ⟨t, dl, []⟩ [.failure e1]).task.state = .retrying ∧
    (runAttempts ⟨t, dl, []⟩ [.failure e1]).task.retry_count = 1 ∧
    (runAttempts ⟨t, dl, []⟩ [.failure e1, .failure e2]).task.state
      = .retrying ∧
    (runAttempts ⟨t, dl, []⟩ [.failure e1, .failure e2]).task.retry_count
      = 2 ∧
    (runAttempts ⟨t, dl, []⟩
        [.failure e1, .failure e2, .failure e3]).task.state = .failed ∧
    (runAttempts ⟨t, dl, []⟩
        [.failure e1, .failure e2, .failure e3]).task.retry_count = 3 ∧
    (runAttempts ⟨t, dl, []⟩
        [.failure e1, .failure e2, .failure e3]).deadLetter
      = dl ++ [t.task_id] ∧
    (runAttempts ⟨t, dl, []⟩
        [.failure e1, .failure e2, .failure e3]).delays
      = [backoffBase * 2 ^ 1, backoffBase * 2 ^ 2] := by
  norm_num [runAttempts, processOutcome, hrc, hmax, backoffBase]

/-- C2 witness: the amended behavior at a concrete task. -/
theorem task_retry_exhaustion_witness :
    (⟨7, .queued, 0, 3, none⟩ : IngestTask).retry_count = 0 ∧
    (runAttempts ⟨⟨7, .queued, 0, 3, none⟩, [], []⟩
        [.failure "t1", .failure "t2", .failure "t3"]).task.state
      = .failed := by
  refine ⟨rfl, ?_⟩
  exact (task_retry_exhaustion ⟨7, .queued, 0, 3, none⟩ [] "t1" "t2" "t3"
    rfl rfl).2.2.2.2.1

/-- C4: with reranking enabled, a failing or unavailable reranker never
fails the query: retrieval returns a successful (non-error) result whose
ordering is the combined-score ordering unmodified, truncated to
top_k_final by the final stage, and flagged degraded. -/
theorem reranker_failure_degrades (spec : RetrievalSpec)
    (reranker : List RankedResult → Option (List RankedResult))
    (vres kres : List (ℕ × ℚ))
    (hen : spec.enable_reranking = true)
    (hfail : ∀ input, reranker input = none) :
    HybridRetrievalEngine.retrieve spec reranker vres kres =
      Except.ok
        ⟨(sortBy combinedOrder
            (combineCandidates spec.hybrid_weights
              (mergeCandidates vres kres))).take spec.top_k_final,
         true⟩ := by
  simp [HybridRetrievalEngine.retrieve, hen, hfail]

/-- C4 witness: a concrete query with an unavailable reranker completes
with the degraded flag set. -/
theorem reranker_failure_degrades_witness :
    (⟨.hybrid, 10, 1, ⟨1, 0⟩, true, "ce", 0⟩ :
        RetrievalSpec).enable_reranking = true ∧
    HybridRetrievalEngine.retrieve ⟨.hybrid, 10, 1, ⟨1, 0⟩, true, "ce", 0⟩
        (fun _ => none) [(1, (1 : ℚ))] [] =
      Except.ok ⟨[⟨1, 1, 0, 0⟩], true⟩ := by
  refine ⟨rfl, ?_⟩
  have hmain := reranker_failure_degrades
    ⟨.hybrid, 10, 1, ⟨1, 0⟩, true, "ce", 0⟩ (fun _ => none)
    [(1, (1 : ℚ))] [] rfl (fun _ => rfl)
  rw [hmain]
  simp [sortBy, insertBy, combineCandidates, mergeCandidates, normalizeScore,
    listMin, listMax]

/-- An empty error list from validate means every consistency and
credential check passed. -/
theorem validate_empty_errors_all_pass (resolve : String → Option String)
    (est unit : ℕ) (p : PipelineConfig) (existing : Option PipelineConfig)
    (hnil : (validate resolve est unit p existing).errors = []) :
    |p.retrieval.hybrid_weights.semantic +
       p.retrieval.hybrid_weights.keyword - 1| ≤ weightsEpsilon ∧
    p.retrieval.top_k_final ≤ p.retrieval.top_k_initial ∧
    (resolve p.embedding.credential_ref).isSome = true ∧
    (resolve p.generation.credential_ref).isSome = true := by
  simp only [validate] at hnil
  split_ifs at hnil with h1 h2 h3 h4 h5 <;> simp_all

/-- C3: for every malformed configuration — hybrid weights whose sum
strays from 1 beyond the tolerance, top_k_final exceeding top_k_initial,
or an unresolvable credential — validate returns ok false with a
non-empty error list in which every error names a field.  validate is a
total function, so no user-input problem can raise. -/
theorem validate_rejects_malformed (resolve : String → Option String)
    (est unit : ℕ) (p : PipelineConfig) (existing : Option PipelineConfig)
    (hbad :
      ¬ |p.retrieval.hybrid_weights.semantic +
           p.retrieval.hybrid_weights.keyword - 1| ≤ weightsEpsilon ∨
      p.retrieval.top_k_initial < p.retrieval.top_k_final ∨
      (resolve p.embedding.credential_ref).isNone = true ∨
      (resolve p.generation.credential_ref).isNone = true) :
    (validate resolve est unit p existing).ok = false ∧
    (validate resolve est unit p existing).errors ≠ [] ∧
    ∀ e ∈ (validate resolve est unit p existing).errors, e.field ≠ "" := by
  have hne : (validate resolve est unit p existing).errors ≠ [] := by
    intro hnil
    have hall := validate_empty_errors_all_pass resolve est unit p existing hnil
    rcases hbad with hb | hb | hb | hb
    · exact hb hall.1
    · omega
    · rw [Option.isNone_iff_eq_none] at hb
      rw [hb] at hall
      simp at hall
    · rw [Option.isNone_iff_eq_none] at hb
      rw [hb] at hall
      simp at hall
  refine ⟨?_, hne, ?_⟩
  · have hok : (validate resolve est unit p existing).ok =
        (validate resolve est unit p existing).errors.isEmpty := rfl
    cases h : (validate resolve est unit p existing).errors with
    | nil => exact absurd h hne
    | cons a l => rw [hok, h]; rfl
  · intro e he
    simp only [validate, List.mem_append] at he
    rcases he with ((((h | h) | h) | h) | h) <;> split at h <;> simp_all

/-- C3 witness: a concrete config whose hybrid weights sum to 3/4 is
rejected with ok false. -/
theorem validate_rejects_malformed_witness :
    (¬ |(⟨⟨"openai", "m", [], "cr", 16⟩, ⟨.standard, 500, 50, 3, 0, false⟩,
          ⟨.hybrid, 10, 5, ⟨1/2, 1/4⟩, false, "", 0⟩,
          ⟨"gpt", "openai", 0, 256, "", "cr"⟩⟩ :
            PipelineConfig).retrieval.hybrid_weights.semantic +
          (⟨⟨"openai", "m", [], "cr", 16⟩, ⟨.standard, 500, 50, 3, 0, false⟩,
            ⟨.hybrid, 10, 5, ⟨1/2, 1/4⟩, false, "", 0⟩,
            ⟨"gpt", "openai", 0, 256, "", "cr"⟩⟩ :
              PipelineConfig).retrieval.hybrid_weights.keyword - 1|
        ≤ weightsEpsilon) ∧
    (validate (fun _ => some "sk") 0 0
        ⟨⟨"openai", "m", [], "cr", 16⟩, ⟨.standard, 500, 50, 3, 0, false⟩,
         ⟨.hybrid, 10, 5, ⟨1/2, 1/4⟩, false, "", 0⟩,
         ⟨"gpt", "openai", 0, 256, "", "cr"⟩⟩ none).ok = false := by
  have hw : ¬ |(1 : ℚ) / 2 + 1 / 4 - 1| ≤ weightsEpsilon := by
    rw [show (1 : ℚ) / 2 + 1 / 4 - 1 = -(1 / 4) by norm_num, abs_neg,
      abs_of_nonneg (by norm_num : (0 : ℚ) ≤ 1 / 4)]
    norm_num [weightsEpsilon]
  refine ⟨hw, ?_⟩
  exact (validate_rejects_malformed (fun _ => some "sk") 0 0
    ⟨⟨"openai", "m", [], "cr", 16⟩, ⟨.standard, 500, 50, 3, 0, false⟩,
     ⟨.hybrid, 10, 5, ⟨1/2, 1/4⟩, false, "", 0⟩,
     ⟨"gpt", "openai", 0, 256, "", "cr"⟩⟩ none (Or.inl hw)).1

/-- C6: against a currently ACTIVE config, requires_reprocessing is true
iff the EmbeddingSpec differs in a vector-space field or the ChunkingSpec
differs at all; whenever it is true the ACTIVE transition is refused
without a confirmation token, and in particular any change of
EmbeddingSpec.model_id triggers both. -/
theorem reprocessing_requires_confirmation (resolve : String → Option String)
    (est unit : ℕ) (p a : PipelineConfig) :
    ((validate resolve est unit p (some a)).requires_reprocessing = true ↔
       (embeddingVectorFields p.embedding ≠ embeddingVectorFields a.embedding ∨
        p.chunking ≠ a.chunking)) ∧
    ((validate resolve est unit p (some a)).requires_reprocessing = true →
       markActive (validate resolve est unit p (some a)) none ≠
         Except.ok ()) ∧
    (p.embedding.model_id ≠ a.embedding.model_id →
       (validate resolve est unit p (some a)).requires_reprocessing = true ∧
       markActive (validate resolve est unit p (some a)) none ≠
         Except.ok ()) := by
  have hrr : (validate resolve est unit p (some a)).requires_reprocessing =
      requiresReprocessing p a := rfl
  have hiff : (validate resolve est unit p (some a)).requires_reprocessing
      = true ↔
      (embeddingVectorFields p.embedding ≠ embeddingVectorFields a.embedding ∨
       p.chunking ≠ a.chunking) := by
    rw [hrr, requiresReprocessing, decide_eq_true_iff]
  have hblock : (validate resolve est unit p (some a)).requires_reprocessing
      = true →
      markActive (validate resolve est unit p (some a)) none ≠
        Except.ok () := by
    intro hrep
    unfold markActive
    rcases hok : (validate resolve est unit p (some a)).ok with _ | _
    · simp
    · simp [hok, hrep]
  refine ⟨hiff, hblock, ?_⟩
  intro hmid
  have hrep : (validate resolve est unit p (some a)).requires_reprocessing
      = true := by
    rw [hiff]
    left
    intro hvf
    exact hmid (congrArg (fun q => q.2.1) hvf)
  exact ⟨hrep, hblock hrep⟩

/-- C6 witness: changing only the embedding model id on an otherwise
identical config requires reprocessing and blocks activation without a
confirmation token. -/
theorem reprocessing_requires_confirmation_witness :
    ((⟨⟨"openai", "text-3-large", [], "cr", 16⟩,
        ⟨.standard, 500, 50, 3, 0, false⟩,
        ⟨.hybrid, 10, 5, ⟨1/2, 1/2⟩, false, "", 0⟩,
        ⟨"gpt", "openai", 0, 256, "", "cr"⟩⟩ :
          PipelineConfig).embedding.model_id ≠
      (⟨⟨"openai", "text-3-small", [], "cr", 16⟩,
         ⟨.standard, 500, 50, 3, 0, false⟩,
         ⟨.hybrid, 10, 5, ⟨1/2, 1/2⟩, false, "", 0⟩,
         ⟨"gpt", "openai", 0, 256, "", "cr"⟩⟩ :
           PipelineConfig).embedding.model_id) ∧
    (validate (fun _ => some "sk") 0 0
        ⟨⟨"openai", "text-3-large", [], "cr", 16⟩,
         ⟨.standard, 500, 50, 3, 0, false⟩,
         ⟨.hybrid, 10, 5, ⟨1/2, 1/2⟩, false, "", 0⟩,
         ⟨"gpt", "openai", 0, 256, "", "cr"⟩⟩
        (some ⟨⟨"openai", "text-3-small", [], "cr", 16⟩,
          ⟨.standard, 500, 50, 3, 0, false⟩,
          ⟨.hybrid, 10, 5, ⟨1/2, 1/2⟩, false, "", 0⟩,
          ⟨"gpt", "openai", 0, 256, "", "cr"⟩⟩)).requires_reprocessing
      = true := by
  have hm : ("text-3-large" : String) ≠ "text-3-small" := by decide
  refine ⟨hm, ?_⟩
  exact ((reprocessing_requires_confirmation (fun _ => some "sk") 0 0
    ⟨⟨"openai", "text-3-large", [], "cr", 16⟩,
     ⟨.standard, 500, 50, 3, 0, false⟩,
     ⟨.hybrid, 10, 5, ⟨1/2, 1/2⟩, false, "", 0⟩,
     ⟨"gpt", "openai", 0, 256, "", "cr"⟩⟩
    ⟨⟨"openai", "text-3-small", [], "cr", 16⟩,
     ⟨.standard, 500, 50, 3, 0, false⟩,
     ⟨.hybrid, 10, 5, ⟨1/2, 1/2⟩, false, "", 0⟩,
     ⟨"gpt", "openai", 0, 256, "", "cr"⟩⟩).2.2 hm).1

/-- A file that is not currently ingested, not pending behind an open
dialog, and never re-selected, is never ingested by any later sequence of
knowledge-tab events. -/
theorem knowledgeRun_no_ingest (f : String) :
    ∀ (evs : List KnowledgeEvent) (s : KnowledgeState),
      KnowledgeEvent.selectFile f ∉ evs →
      f ∉ s.ingested →
      (s.showConfirmDialog = true → s.pendingFile ≠ some f) →
      f ∉ (knowledgeRun s evs).ingested := by
  intro evs
  induction evs with
  | nil =>
      intro s _ hfi _
      exact hfi
  | cons e es ih =>
      intro s hne hfi hsafe
      have hene : e ≠ KnowledgeEvent.selectFile f := by
        intro h
        exact hne (h ▸ List.mem_cons_self e es)
      have hes : KnowledgeEvent.selectFile f ∉ es := by
        intro h
        exact hne (List.mem_cons_of_mem e h)
      refine ih (knowledgeStep s e) hes ?_ ?_
      · cases e with
        | selectFile g =>
            have hgf : g ≠ f := by
              intro h
              exact hene (by rw [h])
            simp only [knowledgeStep, handleFileChange]
            split_ifs <;> simp_all
        | confirmUpload =>
            simp only [knowledgeStep, handleConfirmUpload]
            split_ifs with hd
            · cases hp : s.pendingFile with
              | none => simpa [hp] using hfi
              | some g =>
                  have hgf : g ≠ f := by
                    intro h
                    exact (hsafe hd) (h ▸ hp)
                  have hfg : f ≠ g := fun h => hgf h.symm
                  simp_all
            · exact hfi
        | cancelDialog =>
            simpa [knowledgeStep, handleCancelDialog] using hfi
      · cases e with
        | selectFile g =>
            have hgf : g ≠ f := by
              intro h
              exact hene (by rw [h])
            simp only [knowledgeStep, handleFileChange]
            split_ifs <;> simp_all
        | confirmUpload =>
            simp only [knowledgeStep, handleConfirmUpload]
            split_ifs with hd
            · cases hp : s.pendingFile <;> simp [hp]
            · exact hsafe
        | cancelDialog =>
            simp [knowledgeStep, handleCancelDialog]

/-- C10: with an empty document list a selected file is not ingested but
parked behind the confirmation dialog, confirming then ingests it; after a
cancel the parked file is never ingested by any later events that do not
re-select it; with a non-empty document list a selected file is ingested
immediately and no dialog opens. -/
theorem knowledge_first_upload_confirmation (s : KnowledgeState) (f : String)
    (hf : f ∉ s.ingested) :
    (s.documents = [] →
       (handleFileChange s f).ingested = s.ingested ∧
       (handleFileChange s f).showConfirmDialog = true ∧
       (handleFileChange s f).pendingFile = some f ∧
       (handleConfirmUpload (handleFileChange s f)).ingested
         = s.ingested ++ [f]) ∧
    (s.documents = [] →
       ∀ evs : List KnowledgeEvent, KnowledgeEvent.selectFile f ∉ evs →
         f ∉ (knowledgeRun (handleCancelDialog (handleFileChange s f))
               evs).ingested) ∧
    (s.documents ≠ [] →
       (handleFileChange s f).ingested = s.ingested ++ [f] ∧
       (handleFileChange s f).showConfirmDialog = s.showConfirmDialog) := by
  refine ⟨?_, ?_, ?_⟩
  · intro hd
    simp [handleFileChange, handleConfirmUpload, hd]
  · intro hd evs hne
    refine knowledgeRun_no_ingest f evs _ hne ?_ ?_
    · simpa [handleCancelDialog, handleFileChange, hd] using hf
    · simp [handleCancelDialog]
  · intro hd
    simp [handleFileChange, List.isEmpty_iff, hd]

/-- C10 witness: on a fresh chatbot the selected file is parked, and after
cancelling, a stray confirm event ingests nothing. -/
theorem knowledge_first_upload_confirmation_witness :
    ("doc.pdf" ∉ (⟨[], none, false, []⟩ : KnowledgeState).ingested) ∧
    (handleFileChange ⟨[], none, false, []⟩ "doc.pdf").showConfirmDialog
      = true ∧
    "doc.pdf" ∉ (knowledgeRun
        (handleCancelDialog (handleFileChange ⟨[], none, false, []⟩
          "doc.pdf"))
        [KnowledgeEvent.confirmUpload]).ingested := by
  have hf : "doc.pdf" ∉ (⟨[], none, false, []⟩ : KnowledgeState).ingested := by
    simp
  have hmain := knowledge_first_upload_confirmation ⟨[], none, false, []⟩
    "doc.pdf" hf
  refine ⟨hf, (hmain.1 rfl).2.1, ?_⟩
  refine hmain.2.1 rfl [KnowledgeEvent.confirmUpload] ?_
  simp

/-- The standard sliding-window start offsets form an arithmetic
progression of some positive length whose non-final members leave more
than a full chunk before the text end and whose final member reaches it. -/
theorem standardStartsAux_progression (cs step N : ℕ) (hstep : 0 < step) :
    ∀ fuel s, N - s ≤ fuel → ∃ n, 0 < n ∧
      standardStartsAux cs step N fuel s
        = (List.range n).map (fun i => s + i * step) ∧
      (∀ i, i + 1 < n → s + i * step + cs < N) ∧
      N ≤ s + (n - 1) * step + cs := by
  intro fuel
  induction fuel with
  | zero =>
      intro s hs
      refine ⟨1, by omega, ?_, ?_, ?_⟩
      · rw [show List.range 1 = [0] from rfl]
        simp [standardStartsAux]
      · intro i hi
        omega
      · simpa using (by omega : N ≤ s + cs)
  | succ fuel ih =>
      intro s hs
      by_cases hend : N ≤ s + cs
      · refine ⟨1, by omega, ?_, ?_, ?_⟩
        · rw [show List.range 1 = [0] from rfl]
          simp [standardStartsAux, hend]
        · intro i hi
          omega
        · simpa using hend
      · obtain ⟨n, hn, heq, hcond, hlast⟩ := ih (s + step) (by omega)
        refine ⟨n + 1, by omega, ?_, ?_, ?_⟩
        · simp only [standardStartsAux, if_neg hend]
          rw [heq, List.range_succ_eq_map, List.map_cons, List.map_map]
          have hfun : (fun i => s + step + i * step)
              = ((fun i => s + i * step) ∘ Nat.succ) := by
            funext i
            simp only [Function.comp_apply]
            rw [Nat.succ_mul]
            omega
          rw [hfun]
          simp
        · intro i hi
          cases i with
          | zero =>
              simp only [Nat.zero_mul, Nat.add_zero]
              omega
          | succ j =>
              have hj := hcond j (by omega)
              rw [Nat.succ_mul]
              omega
        · have hk : n = (n - 1) + 1 := by omega
          have h2 : n * step = (n - 1) * step + step := by
            conv_lhs => rw [hk]
            rw [Nat.succ_mul]
          simp only [Nat.add_sub_cancel]
          omega

/-- C7: for a document of N units with N at least chunk_size and
overlap < chunk_size, the standard strategy yields exactly
ceil((N - overlap) / (chunk_size - overlap)) chunks — written here with
the natural-number ceiling (N - ov + (cs - ov) - 1) / (cs - ov) — and
each pair of consecutive chunks abuts at offsets cs - ov apart, the
earlier chunk spanning a full chunk_size so that exactly overlap units
are shared. -/
theorem standard_chunking_count_overlap (cs ov N : ℕ) (hov : ov < cs)
    (hN : cs ≤ N) :
    (standardChunkSpans cs ov N).length
      = (N - ov + (cs - ov) - 1) / (cs - ov) ∧
    ∀ i (h : i + 1 < (standardChunkSpans cs ov N).length),
      ((standardChunkSpans cs ov N).get ⟨i + 1, h⟩).1
          = ((standardChunkSpans cs ov N).get ⟨i, Nat.lt_of_succ_lt h⟩).1
              + (cs - ov) ∧
      ((standardChunkSpans cs ov N).get ⟨i, Nat.lt_of_succ_lt h⟩).2 = cs ∧
      ((standardChunkSpans cs ov N).get ⟨i, Nat.lt_of_succ_lt h⟩).1 + cs
          - ((standardChunkSpans cs ov N).get ⟨i + 1, h⟩).1 = ov := by
  obtain ⟨n, hn, heq, hcond, hlast⟩ :=
    standardStartsAux_progression cs (cs - ov) N (by omega) N 0 (by omega)
  have hstarts : standardStarts cs ov N
      = (List.range n).map (fun i => 0 + i * (cs - ov)) := heq
  have hspans : standardChunkSpans cs ov N
      = (List.range n).map
          (fun i => (0 + i * (cs - ov), min cs (N - (0 + i * (cs - ov))))) := by
    rw [standardChunkSpans, hstarts, List.map_map]
    rfl
  have hlen : (standardChunkSpans cs ov N).length = n := by
    rw [hspans, List.length_map, List.length_range]
  obtain ⟨k, rfl⟩ : ∃ k, n = k + 1 := ⟨n - 1, by omega⟩
  have hget : ∀ j (hj : j < (standardChunkSpans cs ov N).length),
      (standardChunkSpans cs ov N).get ⟨j, hj⟩
        = (j * (cs - ov), min cs (N - j * (cs - ov))) := by
    intro j hj
    simp only [hspans, List.get_eq_getElem, List.getElem_map,
      List.getElem_range, Nat.zero_add]
  constructor
  · rw [hlen]
    refine (Nat.div_eq_of_lt_le ?_ ?_).symm
    · by_cases hk : k = 0
      · subst hk
        omega
      · have hc := hcond (k - 1) (by omega)
        have hke : k + 1 = (k - 1) + 2 := by omega
        rw [hke, Nat.add_mul]
        omega
    · have hl : N ≤ k * (cs - ov) + cs := by simpa using hlast
      rw [show k + 1 + 1 = k + 2 from rfl, Nat.add_mul]
      omega
  · intro i h
    have hi : i + 1 < k + 1 := by
      rw [hlen] at h
      exact h
    rw [hget (i + 1) h, hget i (Nat.lt_of_succ_lt h)]
    have hc := hcond i (by omega)
    refine ⟨?_, ?_, ?_⟩
    · show (i + 1) * (cs - ov) = i * (cs - ov) + (cs - ov)
      rw [Nat.succ_mul]
    · show min cs (N - i * (cs - ov)) = cs
      rw [min_eq_left (by omega)]
    · show i * (cs - ov) + cs - (i + 1) * (cs - ov) = ov
      rw [Nat.succ_mul]
      omega

/-- Insertion position only depends on the comparisons against the list
members. -/
theorem insertBy_congr (r s : α → α → Bool) (a : α) :
    ∀ l, (∀ b ∈ l, r a b = s a b) → insertBy r a l = insertBy s a l := by
  intro l
  induction l with
  | nil => intro _; rfl
  | cons b bs ih =>
      intro h
      simp only [insertBy]
      rw [h b (List.mem_cons_self b bs)]
      by_cases hb : s a b = true
      · simp [hb]
      · simp [hb, ih (fun c hc => h c (List.mem_cons_of_mem b hc))]

/-- Members of an insertion come from the inserted element or the list. -/
theorem mem_insertBy (r : α → α → Bool) (a c : α) :
    ∀ l, c ∈ insertBy r a l → c = a ∨ c ∈ l := by
  intro l
  induction l with
  | nil =>
      intro h
      simp only [insertBy, List.mem_singleton] at h
      exact Or.inl h
  | cons b bs ih =>
      intro h
      simp only [insertBy] at h
      by_cases hb : r a b = true
      · rw [if_pos hb] at h
        rcases List.mem_cons.mp h with h1 | h1
        · exact Or.inl h1
        · exact Or.inr h1
      · rw [if_neg hb] at h
        rcases List.mem_cons.mp h with h1 | h1
        · exact Or.inr (h1 ▸ List.mem_cons_self b bs)
        · rcases ih h1 with h2 | h2
          · exact Or.inl h2
          · exact Or.inr (List.mem_cons_of_mem b h2)

/-- The sorted list draws its members from the input list. -/
theorem mem_sortBy (r : α → α → Bool) (c : α) :
    ∀ l, c ∈ sortBy r l → c ∈ l := by
  intro l
  induction l with
  | nil => intro h; simp [sortBy] at h
  | cons a as ih =>
      intro h
      rcases mem_insertBy r a c (sortBy r as) h with h1 | h1
      · exact h1 ▸ List.mem_cons_self a as
      · exact List.mem_cons_of_mem a (ih h1)

/-- Sorting is determined by the comparisons among the list members. -/
theorem sortBy_congr (r s : α → α → Bool) :
    ∀ l, (∀ a ∈ l, ∀ b ∈ l, r a b = s a b) → sortBy r l = sortBy s l := by
  intro l
  induction l with
  | nil => intro _; rfl
  | cons a as ih =>
      intro h
      simp only [sortBy]
      rw [ih (fun x hx y hy =>
        h x (List.mem_cons_of_mem a hx) y (List.mem_cons_of_mem a hy))]
      refine insertBy_congr r s a (sortBy s as) ?_
      intro b hb
      exact h a (List.mem_cons_self a as) b
        (List.mem_cons_of_mem a (mem_sortBy s b as hb))

/-- Min-max normalization is monotone. -/
theorem normalizeScore_mono (xs : List ℚ) {a b : ℚ} (hab : a ≤ b) :
    normalizeScore xs a ≤ normalizeScore xs b := by
  simp only [normalizeScore]
  split_ifs with h
  · exact le_refl 0
  · rw [not_le] at h
    have hpos : 0 < listMax xs - listMin xs := by linarith
    exact (div_le_div_iff_of_pos_right hpos).mpr (by linarith)

/-- With the keyword weight zero, every combined score is the semantic
weight times the normalized semantic score. -/
theorem combined_score_of_keyword_zero (w : HybridWeights)
    (cands : List RetrievalCandidate) (hk : w.keyword = 0) :
    ∀ x ∈ combineCandidates w cands,
      x.combined_score = w.semantic *
        normalizeScore (cands.map RetrievalCandidate.semantic_score)
          x.semantic_score := by
  intro x hx
  simp only [combineCandidates, List.mem_map] at hx
  obtain ⟨c, hc, rfl⟩ := hx
  simp [hk]

/-- When both combined scores are a common nonnegative multiple of the
normalized semantic scores, the combined precedence coincides with the
semantic precedence. -/
theorem combinedOrder_eq_semanticOrder (W : ℚ) (hW : 0 ≤ W) (xs : List ℚ)
    (a b : RankedResult)
    (ha : a.combined_score = W * normalizeScore xs a.semantic_score)
    (hb : b.combined_score = W * normalizeScore xs b.semantic_score) :
    combinedOrder a b = semanticOrder a b := by
  by_cases hsem : a.semantic_score = b.semantic_score
  · have hcomb : a.combined_score = b.combined_score := by rw [ha, hb, hsem]
    simp [combinedOrder, semanticOrder, hsem, hcomb]
  · by_cases hcomb : a.combined_score = b.combined_score
    · simp [combinedOrder, semanticOrder, hsem, hcomb]
    · simp only [combinedOrder, semanticOrder, if_neg hsem, if_neg hcomb]
      rw [decide_eq_decide]
      have hWpos : 0 < W := by
        rcases lt_or_eq_of_le hW with h | h
        · exact h
        · exact absurd (by rw [ha, hb, ← h, zero_mul, zero_mul]) hcomb
      constructor
      · intro hlt
        by_contra hge
        push_neg at hge
        have hmono := normalizeScore_mono xs hge
        have hle : a.combined_score ≤ b.combined_score := by
          rw [ha, hb]
          exact mul_le_mul_of_nonneg_left hmono hW
        linarith
      · intro hlt
        have hmono := normalizeScore_mono xs (le_of_lt hlt)
        have hle : b.combined_score ≤ a.combined_score := by
          rw [ha, hb]
          exact mul_le_mul_of_nonneg_left hmono hW
        exact lt_of_le_of_ne hle (fun hh => hcomb hh.symm)

/-- C5: the combined score of every candidate is the stated deterministic
function of the score pairs and weights; a candidate found by only one
sub-search receives 0 for the missing signal; and with the keyword weight
zero the combined ranking coincides with the ranking by raw semantic
score (ties broken identically by higher raw semantic score, then chunk
id). -/
theorem hybrid_combination_spec (vres kres : List (ℕ × ℚ))
    (w : HybridWeights) (cands : List RetrievalCandidate) :
    ((combineCandidates w cands).map
        (fun r => (r.chunk_id, r.combined_score))
      = cands.map (fun c => (c.chunk_id,
          w.semantic * normalizeScore
              (cands.map RetrievalCandidate.semantic_score)
              c.semantic_score +
            w.keyword * normalizeScore
              (cands.map RetrievalCandidate.keyword_score)
              c.keyword_score))) ∧
    (∀ id sc, (id, sc) ∈ vres → List.lookup id kres = none →
       RetrievalCandidate.mk id sc 0 ∈ mergeCandidates vres kres) ∧
    (∀ id sc, (id, sc) ∈ kres → List.lookup id vres = none →
       RetrievalCandidate.mk id 0 sc ∈ mergeCandidates vres kres) ∧
    (w.keyword = 0 → 0 ≤ w.semantic →
       sortBy combinedOrder (combineCandidates w cands)
         = sortBy semanticOrder (combineCandidates w cands)) := by
  refine ⟨?_, ?_, ?_, ?_⟩
  · simp [combineCandidates, List.map_map, Function.comp]
  · intro id sc hmem hlk
    refine List.mem_append_left _ ?_
    exact List.mem_map.mpr ⟨(id, sc), hmem, by simp [hlk]⟩
  · intro id sc hmem hlv
    refine List.mem_append_right _ ?_
    refine List.mem_map.mpr ⟨(id, sc), ?_, rfl⟩
    exact List.mem_filter.mpr ⟨hmem, by simp [hlv]⟩
  · intro hk hs
    refine sortBy_congr combinedOrder semanticOrder
      (combineCandidates w cands) ?_
    intro a ha b hb
    exact combinedOrder_eq_semanticOrder w.semantic hs
      (cands.map RetrievalCandidate.semantic_score) a b
      (combined_score_of_keyword_zero w cands hk a ha)
      (combined_score_of_keyword_zero w cands hk b hb)

/-- C5 witness: concrete candidates with keyword weight zero: the merged
candidate missing from the keyword search carries keyword score 0, and the
combined ranking equals the semantic ranking. -/
theorem hybrid_combination_spec_witness :
    ((⟨1, 0⟩ : HybridWeights).keyword = 0) ∧
    (0 ≤ (⟨1, 0⟩ : HybridWeights).semantic) ∧
    RetrievalCandidate.mk 3 2 0 ∈ mergeCandidates [(3, (2 : ℚ))]
      [(4, (9 : ℚ))] ∧
    sortBy combinedOrder
        (combineCandidates ⟨1, 0⟩ [⟨1, 3, 5⟩, ⟨2, 7, 1⟩])
      = sortBy semanticOrder
          (combineCandidates ⟨1, 0⟩ [⟨1, 3, 5⟩, ⟨2, 7, 1⟩]) := by
  have hmain := hybrid_combination_spec [(3, (2 : ℚ))] [(4, (9 : ℚ))]
    ⟨1, 0⟩ [⟨1, 3, 5⟩, ⟨2, 7, 1⟩]
  refine ⟨rfl, by norm_num, ?_, hmain.2.2.2 rfl (by norm_num)⟩
  exact hmain.2.1 3 2 (by simp) (by simp [List.lookup])

/-- C7 witness: a 600-unit document with chunk_size 500 and overlap 50
yields ceil((600 - 50) / 450) = 2 chunks at offsets 0 and 450. -/
theorem standard_chunking_count_overlap_witness :
    50 < 500 ∧ 500 ≤ 600 ∧
    (standardChunkSpans 500 50 600).length
      = (600 - 50 + (500 - 50) - 1) / (500 - 50) ∧
    standardChunkSpans 500 50 600 = [(0, 500), (450, 150)] := by
  refine ⟨by norm_num, by norm_num,
    (standard_chunking_count_overlap 500 50 600 (by norm_num)
      (by norm_num)).1, ?_⟩
  rfl

/-- C8: for every chunking strategy, split on empty or whitespace-only
input returns zero chunks (and, being a total function, raises nothing),
and on a non-whitespace document shorter than chunk_size returns exactly
one chunk consisting of the whole document (hence zero overlap). -/
theorem split_edge_cases (spec : ChunkingSpec) (hints : StructureHints)
    (text : List Char) :
    (text.all Char.isWhitespace = true →
       ChunkingEngine.split spec hints text = []) ∧
    (text.all Char.isWhitespace = false →
       text.length < spec.chunk_size →
       ChunkingEngine.split spec hints text = [text]) := by
  constructor
  · intro hw
    simp [ChunkingEngine.split, hw]
  · intro hw hlen
    simp [ChunkingEngine.split, hw, hlen]

/-- C8 witness: with chunk_size 10, a whitespace-only document yields no
chunks and a two-character document yields itself as the one chunk, for a
concrete spec of each strategy. -/
theorem split_edge_cases_witness :
    ([' ', ' '].all Char.isWhitespace = true ∧
      ChunkingEngine.split ⟨.standard, 10, 2, 3, 0, false⟩ ⟨fun _ => 0⟩
        [' ', ' '] = []) ∧
    (['h', 'i'].all Char.isWhitespace = false ∧
      (['h', 'i'] : List Char).length < 10 ∧
      ChunkingEngine.split ⟨.window, 10, 2, 3, 0, false⟩ ⟨fun _ => 0⟩
        ['h', 'i'] = [['h', 'i']]) := by
  have hw1 : ([' ', ' '].all Char.isWhitespace) = true := by decide
  have hw2 : (['h', 'i'].all Char.isWhitespace) = false := by decide
  refine ⟨⟨hw1, ?_⟩, hw2, by decide, ?_⟩
  · exact (split_edge_cases ⟨.standard, 10, 2, 3, 0, false⟩ ⟨fun _ => 0⟩
      [' ', ' ']).1 hw1
  · exact (split_edge_cases ⟨.window, 10, 2, 3, 0, false⟩ ⟨fun _ => 0⟩
      ['h', 'i']).2 hw2 (by decide)
